import Mathlib

/-!
Shallow embedding of the bpblog static-site generator (dmose/bpblog).

The definitions below are translated from `src/build.ts` and `src/dev.ts`:

* `PostMeta` / `Post` mirror the TypeScript interfaces; `date` is modelled as
  the integer returned by `Date.prototype.getTime` (milliseconds since the
  Unix epoch, displayed at UTC), `draft?: boolean` as a `Bool` defaulting to
  `false` (a truthy draft flag is `true`).
* JavaScript's `String.prototype.replace(searchString, replacement)` replaces
  only the FIRST occurrence of the search string; it is embedded as
  `replaceFirst` below.  The `$`-escape patterns JavaScript recognises inside
  the replacement string are not modelled (no claim involves them).
* `gray-matter` and `marked` are external libraries, so `parsePost` takes the
  frontmatter parser as an explicit fallible function (`Except` models a
  thrown exception / rejected promise) and the Markdown renderer as a total
  function.
* The filesystem is modelled by returning the list of `(filename, contents)`
  pairs that `build` writes, in the order the writes are issued.
-/

/-- Frontmatter metadata, from the `PostMeta` interface in `src/build.ts`.
`date` is the epoch-millisecond value of the JavaScript `Date`. -/
structure PostMeta where
  title : String
  date : Int
  tags : List String := []
  draft : Bool := false
deriving DecidableEq, Repr

/-- A parsed post, from the `Post` interface in `src/build.ts`. -/
structure Post where
  slug : String
  meta : PostMeta
  content : String
  html : String
deriving DecidableEq, Repr

/-- Replace the first occurrence of `pat` in a character list with `repl`,
leaving the remainder (including later occurrences of `pat`) untouched.
If `pat` does not occur, the list is returned unchanged.  An empty `pat`
matches at position 0 (so `repl` is prepended), as in JavaScript. -/
def replaceFirstChars (pat repl : List Char) : List Char → List Char
  | [] => if pat.isEmpty then repl else []
  | c :: rest =>
    if pat.isPrefixOf (c :: rest) then repl ++ (c :: rest).drop pat.length
    else c :: replaceFirstChars pat repl rest

/-- JavaScript `s.replace(pat, repl)` with a string search pattern:
replaces only the first occurrence. -/
def replaceFirst (s pat repl : String) : String :=
  ⟨replaceFirstChars pat.data repl.data s.data⟩

/-- Whether `pat` occurs as a contiguous sublist of `l`. -/
def hasSubList (pat : List Char) : List Char → Bool
  | [] => pat.isEmpty
  | c :: rest => pat.isPrefixOf (c :: rest) || hasSubList pat rest

/-- Whether the string `pat` occurs in `s` (JavaScript `s.includes(pat)`). -/
def containsToken (s pat : String) : Bool :=
  hasSubList pat.data s.data

/-- The literal template token `{{title}}`. -/
def titleToken : String := "\x7b\x7btitle\x7d\x7d"

/-- The literal template token `{{date}}`. -/
def dateToken : String := "\x7b\x7bdate\x7d\x7d"

/-- The literal template token `{{content}}`. -/
def contentToken : String := "\x7b\x7bcontent\x7d\x7d"

/-- The literal template token `{{posts}}`. -/
def postsToken : String := "\x7b\x7bposts\x7d\x7d"

/-- English month name, 1 = January. -/
def monthName (m : Int) : String :=
  if m = 1 then "January" else if m = 2 then "February" else if m = 3 then "March"
  else if m = 4 then "April" else if m = 5 then "May" else if m = 6 then "June"
  else if m = 7 then "July" else if m = 8 then "August" else if m = 9 then "September"
  else if m = 10 then "October" else if m = 11 then "November" else "December"

/-- `formatDate` from `src/build.ts`: renders the date in the en-US long form
"January 17, 2026".  `toLocaleDateString` is timezone-dependent; the embedding
fixes the timezone to UTC and converts epoch milliseconds to a civil date with
the standard proleptic-Gregorian algorithm. -/
def formatDate (dateMs : Int) : String :=
  let days := Int.fdiv dateMs 86400000
  let z := days + 719468
  let era := Int.fdiv z 146097
  let doe := z - era * 146097
  let yoe := Int.fdiv (doe - Int.fdiv doe 1460 + Int.fdiv doe 36524 - Int.fdiv doe 146096) 365
  let y := yoe + era * 400
  let doy := doe - (365 * yoe + Int.fdiv yoe 4 - Int.fdiv yoe 100)
  let mp := Int.fdiv (5 * doy + 2) 153
  let d := doy - Int.fdiv (153 * mp + 2) 5 + 1
  let m := mp + (if mp < 10 then 3 else -9)
  let year := if m ≤ 2 then y + 1 else y
  monthName m ++ " " ++ toString d ++ ", " ++ toString year

/-- JavaScript `s.endsWith(pat)`: whether `pat` is a suffix of `s`. -/
def endsWithStr (s pat : String) : Bool :=
  pat.data.isSuffixOf s.data

/-- The slug computation from `parsePost` (`src/build.ts` line 36):
`filename.replace(".md", "")`. -/
def slugOf (filename : String) : String :=
  replaceFirst filename ".md" ""

/-- `parsePost` from `src/build.ts`.  `matterFn` is the `gray-matter` call
(fallible: a parse failure is a thrown exception, modelled by `Except.error`,
which the function does not catch); `markedFn` is the Markdown renderer,
modelled as total.  Returns `Except.ok none` when the filename is rejected. -/
def parsePost (matterFn : String → Except String (PostMeta × String))
    (markedFn : String → String) (filename fileContent : String) :
    Except String (Option Post) :=
  if endsWithStr filename ".md" = false then Except.ok none
  else
    match matterFn fileContent with
    | Except.error e => Except.error e
    | Except.ok (meta, markdown) =>
      Except.ok (some { slug := slugOf filename, meta := meta,
                        content := markdown, html := markedFn markdown })

/-- The sort order used by every `.sort` call in `src/build.ts`: the
comparator `(a, b) => b.meta.date - a.meta.date` orders posts by descending
date. -/
def dateDesc (a b : Post) : Prop :=
  b.meta.date ≤ a.meta.date

instance : DecidableRel dateDesc := fun a b =>
  inferInstanceAs (Decidable (b.meta.date ≤ a.meta.date))

instance : IsTotal Post dateDesc :=
  ⟨fun a b => le_total b.meta.date a.meta.date⟩

instance : IsTrans Post dateDesc :=
  ⟨fun _ _ _ hab hbc => le_trans hbc hab⟩

/-- `filterPostsForIndex` from `src/build.ts`: drop posts with a truthy
draft flag, then sort descending by date.  JavaScript's `Array.prototype.sort`
is a stable comparison sort; it is embedded as (stable) insertion sort on the
comparator's order. -/
def filterPostsForIndex (posts : List Post) : List Post :=
  List.insertionSort dateDesc (posts.filter (fun p => !p.meta.draft))

/-- The date-descending sort `getPosts` applies to the full post list
(drafts included) before `build` uses it. -/
def getPostsSorted (posts : List Post) : List Post :=
  List.insertionSort dateDesc posts

/-- The template substitution inside `buildPost` (`src/build.ts` lines 74-77):
three chained `String.prototype.replace` calls, each applied to the result of
the previous one and each replacing only the first occurrence. -/
def buildPostHtml (post : Post) (template : String) : String :=
  replaceFirst
    (replaceFirst
      (replaceFirst template titleToken post.meta.title)
      dateToken (formatDate post.meta.date))
    contentToken post.html

/-- `buildPost` from `src/build.ts`: substitutes the template and writes the
result to `<slug>.html`; modelled as the written `(filename, contents)`
pair. -/
def buildPost (post : Post) (template : String) : String × String :=
  (post.slug ++ ".html", buildPostHtml post template)

/-- The per-post `<article>` fragment `buildIndex` produces.  The raw
interpolation of the `Date` into the `datetime` attribute is modelled as the
epoch-millisecond value. -/
def articleEntry (post : Post) : String :=
  "\n    <article>\n      <h2><a href=\"" ++ post.slug ++ ".html\">" ++
    post.meta.title ++ "</a></h2>\n      <time datetime=\"" ++
    toString post.meta.date ++ "\">" ++ formatDate post.meta.date ++
    "</time>\n    </article>"

/-- `buildIndex` from `src/build.ts`: joins the article fragments and
substitutes them for `{{posts}}` in the index template; modelled as the
contents written to `index.html`. -/
def buildIndexHtml (posts : List Post) (template : String) : String :=
  replaceFirst template postsToken
    (String.intercalate "\n" (posts.map articleEntry))

/-- `build` from `src/build.ts`, modelled from the parsed posts onward (the
directory scan, template reads, `mkdir` and the optional stylesheet copy are
filesystem plumbing): sort all posts (drafts included), write each one via
`buildPost`, then write `index.html` from the draft-filtered list.  The
result is the list of `(filename, contents)` pairs written. -/
def build (posts : List Post) (indexTemplate postTemplate : String) :
    List (String × String) :=
  let allPosts := getPostsSorted posts
  let postPages := allPosts.map (fun p => buildPost p postTemplate)
  let indexPosts := filterPostsForIndex allPosts
  postPages ++ [("index.html", buildIndexHtml indexPosts indexTemplate)]

/-!
Dev-mode watch loop (`src/dev.ts`).

The module-level mutable state (`rebuildTimeout`, `isRebuilding`) and the
timer are embedded as an explicit state machine.  `pending` is the armed
debounce timer together with its captured arguments (`clearTimeout` on an
armed timer removes it; arming a new one overwrites it).  `active` counts
rebuild passes currently executing (`isRebuilding` in the code is the flag
`active ≠ 0`); counting instead of a single flag lets mutual exclusion be
stated non-trivially.  `executed` logs the `(trigger file, recompile flag)`
of each rebuild cycle that actually ran; `skipped` counts cycles dropped by
the in-flight guard in `regenerateSite`.
-/

/-- State of the dev-mode watch loop. -/
structure DevState where
  pending : Option (String × Bool)
  active : Nat
  executed : List (String × Bool)
  skipped : Nat
deriving DecidableEq, Repr

/-- Events driving the dev-mode state machine:
`schedule` is a call to `scheduleRebuild(filePath, needsTypeScriptRecompile)`,
`fire` is the armed debounce timer expiring (running its callback up to the
`isRebuilding` guard in `regenerateSite`), and `finish success` is an
in-flight rebuild completing; the `finally` block clears the flag whether
the build succeeded or failed, so `success` is ignored. -/
inductive DevEvent where
  | schedule (filePath : String) (recompile : Bool)
  | fire
  | finish (success : Bool)
deriving DecidableEq, Repr

/-- One transition of the dev-mode watch loop, from `scheduleRebuild` and
`regenerateSite` in `src/dev.ts`. -/
def devStep (st : DevState) : DevEvent → DevState
  | DevEvent.schedule f b => { st with pending := some (f, b) }
  | DevEvent.fire =>
    match st.pending with
    | none => st
    | some (f, b) =>
      if st.active ≠ 0 then
        { st with pending := none, skipped := st.skipped + 1 }
      else
        { st with pending := none, active := st.active + 1,
                  executed := st.executed ++ [(f, b)] }
  | DevEvent.finish _ => { st with active := st.active - 1 }

/-- Initial dev-mode state: no timer armed, no rebuild in flight. -/
def devInit : DevState :=
  { pending := none, active := 0, executed := [], skipped := 0 }

/-- Run the dev-mode machine over a sequence of events from startup. -/
def devRun (events : List DevEvent) : DevState :=
  events.foldl devStep devInit

/-!
Watcher subscriptions (`startDevMode`).  A chokidar subscription emits a
stream of events: during the initial scan it emits `added` for every file
already present, then `ready`, then events for subsequent filesystem
changes.  In the ready-gated variant of `startDevMode` the
change/add/unlink handlers are attached inside the `ready` handler, so an
emission reaches `scheduleRebuild` only if it arrives while the handlers
are attached (chokidar emits `ready` exactly once; attachment is modelled
idempotently).
-/

/-- An emission of a chokidar watcher. -/
inductive WatchEvent where
  | added (path : String)
  | changed (path : String)
  | unlinked (path : String)
  | ready
deriving DecidableEq, Repr

/-- The `scheduleRebuild` trigger files produced by one watcher subscription,
given whether its handlers are currently attached.  `accept` is the
extension check the handler applies (`.md` for the posts watcher, `.ts` for
the source watcher, `.html`/`.css` for the templates watcher); `onAdd` and
`onUnlink` record whether the subscription registers `add`/`unlink`
handlers in addition to `change` (only the posts watcher does). -/
def watcherScheduleCalls (accept : String → Bool) (onAdd onUnlink : Bool) :
    Bool → List WatchEvent → List String
  | _, [] => []
  | _, WatchEvent.ready :: rest =>
    watcherScheduleCalls accept onAdd onUnlink true rest
  | attached, WatchEvent.changed f :: rest =>
    (if attached && accept f then [f] else []) ++
      watcherScheduleCalls accept onAdd onUnlink attached rest
  | attached, WatchEvent.added f :: rest =>
    (if attached && onAdd && accept f then [f] else []) ++
      watcherScheduleCalls accept onAdd onUnlink attached rest
  | attached, WatchEvent.unlinked f :: rest =>
    (if attached && onUnlink && accept f then [f] else []) ++
      watcherScheduleCalls accept onAdd onUnlink attached rest

/-!
Heap model for the frame property of `filterPostsForIndex`.

JavaScript arrays are mutable references: `Array.prototype.filter`
allocates a fresh array, while `Array.prototype.sort` sorts its receiver in
place.  A heap is a list of arrays; a reference is an index into it.
-/

/-- A heap of post arrays. -/
structure Heap where
  arrays : List (List Post)
deriving DecidableEq, Repr

/-- Dereference: the array a reference points to. -/
def Heap.get (h : Heap) (r : Nat) : List Post :=
  (h.arrays[r]?).getD []

/-- `filterPostsForIndex` as it executes on the heap: `.filter` allocates a
fresh array holding the non-draft posts, `.sort` then mutates that fresh
array in place.  Returns the heap after the call and the reference the
function returns. -/
def filterPostsForIndexImpl (h : Heap) (r : Nat) : Heap × Nat :=
  let filtered := (h.get r).filter (fun p => !p.meta.draft)
  let r1 := h.arrays.length
  let h1 : Heap := ⟨h.arrays ++ [filtered]⟩
  let h2 : Heap := ⟨h1.arrays.set r1 (List.insertionSort dateDesc (h1.get r1))⟩
  (h2, r1)

/-- The template of the repository's own test "should replace all occurrences
of \x7b\x7btitle\x7d\x7d in template": the title placeholder appears in both
the head and the body. -/
def c1Template : String :=
  "<head><title>\x7b\x7btitle\x7d\x7d</title></head>\n<body><h1>\x7b\x7btitle\x7d\x7d</h1></body>"

/-- The post of that test (date taken as the epoch for concreteness). -/
def c1Post : Post :=
  { slug := "test-post", meta := { title := "Test Title", date := 0 },
    content := "# Test content", html := "<h1>Test content</h1>" }

/-- A template in which the title placeholder occurs before the date
placeholder. -/
def c10Template : String := "A\x7b\x7btitle\x7d\x7dB\x7b\x7bdate\x7d\x7dC"

/-- A post whose title contains the literal date placeholder token. -/
def c10Post : Post :=
  { slug := "p", meta := { title := "X\x7b\x7bdate\x7d\x7dY", date := 0 },
    content := "", html := "" }

/-- A concrete non-draft post used in witnesses. -/
def wPost : Post :=
  { slug := "w", meta := { title := "W", date := 0 }, content := "", html := "" }

/-- A concrete always-succeeding frontmatter parser for witnesses. -/
def wMatter : String → Except String (PostMeta × String) :=
  fun s => Except.ok ({ title := "W", date := 0 }, s)

/-- A concrete Markdown renderer for witnesses. -/
def wMarked : String → String :=
  fun s => "<p>" ++ s ++ "</p>"

/-- The posts watcher's extension check. -/
def mdAccept : String → Bool := fun f => endsWithStr f ".md"

/-!
Theorems.
-/

theorem isPrefixOf_dropLast : ∀ {p l : List Char}, p.isPrefixOf l = true →
    p.length + 1 ≤ l.length → p.isPrefixOf l.dropLast = true
  | [], l, _, _ => by simp [List.isPrefixOf]
  | a :: p, [], h, hlen => by simp at hlen
  | a :: p, [b], h, hlen => by simp at hlen
  | a :: p, b :: c :: l, h, hlen => by
    rw [List.dropLast_cons₂]
    simp only [List.isPrefixOf, Bool.and_eq_true] at h ⊢
    refine ⟨h.1, isPrefixOf_dropLast h.2 ?_⟩
    simp only [List.length_cons] at hlen ⊢
    omega

theorem replaceFirst_trailing (pat repl : List Char) (hne : pat ≠ []) :
    ∀ u : List Char, hasSubList pat ((u ++ pat).dropLast) = false →
      replaceFirstChars pat repl (u ++ pat) = u ++ repl
  | [], _ => by
    cases pat with
    | nil => exact absurd rfl hne
    | cons q qs =>
      rw [List.nil_append, replaceFirstChars,
        if_pos (by simp [List.isPrefixOf_iff_prefix]), List.drop_length,
        List.append_nil, List.nil_append]
  | c :: u, h => by
    have ht : u ++ pat ≠ [] := by
      intro hc
      exact hne (List.append_eq_nil.mp hc).2
    obtain ⟨y, zs, hyz⟩ : ∃ y zs, u ++ pat = y :: zs := by
      cases hu : u ++ pat with
      | nil => exact absurd hu ht
      | cons y zs => exact ⟨y, zs, rfl⟩
    rw [List.cons_append, hyz, List.dropLast_cons₂, ← hyz] at h
    simp only [hasSubList, Bool.or_eq_false_iff] at h
    have hnp : pat.isPrefixOf (c :: (u ++ pat)) = false := by
      cases hp : pat.isPrefixOf (c :: (u ++ pat)) with
      | false => rfl
      | true =>
        have hlen : pat.length + 1 ≤ (c :: (u ++ pat)).length := by
          simp [List.length_cons, List.length_append]
        have := isPrefixOf_dropLast hp hlen
        rw [show (c :: (u ++ pat)).dropLast = c :: (u ++ pat).dropLast by
              rw [hyz, List.dropLast_cons₂]] at this
        rw [this] at h
        exact absurd h.1 (by simp)
    show replaceFirstChars pat repl (c :: (u ++ pat)) = (c :: u) ++ repl
    rw [replaceFirstChars, if_neg (by simp [hnp])]
    rw [replaceFirst_trailing pat repl hne u h.2]
    rfl

/-- Claim C4 (counterexample): the slug computation
`filename.replace(".md", "")` removes the FIRST occurrence of `".md"`, not
the trailing extension.  On `"a.mdx.md"` (which ends in `".md"` but contains
`".md"` earlier) the code produces `"ax.md"`, not the extension-stripped
`"a.mdx"` the claim requires. -/
theorem slugOf_strips_first_not_last :
    slugOf "a.mdx.md" = "ax.md" ∧ slugOf "a.mdx.md" ≠ "a.mdx" := by
  decide

/-- Claim C4 (amended): for every filename of the form `u ++ ".md"` in which
`".md"` occurs nowhere except as the trailing extension, the slug is the
filename with that trailing `".md"` stripped (removed exactly once, from the
end).  For filenames with an earlier `".md"` occurrence the first occurrence
is removed instead. -/
theorem slugOf_strips_unique_trailing_extension (u : List Char)
    (h : hasSubList ".md".data ((u ++ ".md".data).dropLast) = false) :
    slugOf ⟨u ++ ".md".data⟩ = ⟨u⟩ := by
  show String.mk (replaceFirstChars ".md".data "".data (u ++ ".md".data)) = ⟨u⟩
  rw [replaceFirst_trailing ".md".data "".data (by decide) u h]
  show String.mk (u ++ []) = ⟨u⟩
  rw [List.append_nil]

/-- Witness for the amended C4 theorem at the filename
`"2024-01-15-hello-world.md"`. -/
theorem slugOf_strips_unique_trailing_extension_witness :
    slugOf ⟨"2024-01-15-hello-world".data ++ ".md".data⟩ =
      ⟨"2024-01-15-hello-world".data⟩ :=
  slugOf_strips_unique_trailing_extension "2024-01-15-hello-world".data
    (by decide)

/-- Claim C1 (the code violates it): `buildPost` substitutes each placeholder
with a single first-occurrence `replace` call, so a template containing
`\x7b\x7btitle\x7d\x7d` twice keeps the literal token at the second location;
the claim (and the repository's own test suite) requires zero remaining
instances. -/
theorem buildPost_secondTitleTokenRemains :
    buildPostHtml c1Post c1Template =
      "<head><title>Test Title</title></head>\n<body><h1>\x7b\x7btitle\x7d\x7d</h1></body>"
    ∧ containsToken (buildPostHtml c1Post c1Template) titleToken = true := by
  decide

theorem mem_filterPostsForIndex_draft {q : Post} {l : List Post}
    (h : q ∈ filterPostsForIndex l) : q.meta.draft = false := by
  unfold filterPostsForIndex at h
  have h2 := (List.mem_insertionSort dateDesc).mp h
  have h3 := (List.mem_filter.mp h2).2
  simpa using h3

/-- Claim C3: `filterPostsForIndex` returns exactly the non-draft posts (a
permutation of the draft-filtered input), none of which has a truthy draft
flag, with output length at most the input length, and with every adjacent
pair in descending date order. -/
theorem filterPostsForIndex_spec (posts : List Post) :
    List.Perm (filterPostsForIndex posts) (posts.filter (fun p => !p.meta.draft))
    ∧ (∀ p, p ∈ filterPostsForIndex posts → p.meta.draft = false)
    ∧ (filterPostsForIndex posts).length ≤ posts.length
    ∧ List.Chain' (fun a b => b.meta.date ≤ a.meta.date)
        (filterPostsForIndex posts) := by
  refine ⟨List.perm_insertionSort dateDesc _,
    fun p hp => mem_filterPostsForIndex_draft hp, ?_, ?_⟩
  · have h1 :=
      (List.perm_insertionSort dateDesc
        (posts.filter (fun p => !p.meta.draft))).length_eq
    calc (filterPostsForIndex posts).length
        = (posts.filter (fun p => !p.meta.draft)).length := h1
      _ ≤ posts.length := List.length_filter_le _ _
  · exact List.Pairwise.chain'
      (List.sorted_insertionSort dateDesc (posts.filter (fun p => !p.meta.draft)))

/-- Witness for C3: instantiating `filterPostsForIndex_spec` at a concrete
one-post list and discharging the membership hypothesis. -/
theorem filterPostsForIndex_spec_witness : wPost.meta.draft = false :=
  (filterPostsForIndex_spec [wPost]).2.1 wPost (by decide)

/-- Claim C2: `build` writes every post, draft or not, to `<slug>.html`;
the index page is generated from exactly `filterPostsForIndex` of the post
list, which contains no post with a truthy draft flag — draft exclusion is
index-only. -/
theorem build_rendersAllPosts_indexExcludesDrafts (posts : List Post)
    (it pt : String) (p : Post) (hp : p ∈ posts) :
    (p.slug ++ ".html", buildPostHtml p pt) ∈ build posts it pt
    ∧ ("index.html",
        buildIndexHtml (filterPostsForIndex (getPostsSorted posts)) it)
        ∈ build posts it pt
    ∧ ∀ q, q ∈ filterPostsForIndex (getPostsSorted posts) →
        q.meta.draft = false := by
  refine ⟨?_, ?_, fun q hq => mem_filterPostsForIndex_draft hq⟩
  · apply List.mem_append_left
    exact List.mem_map_of_mem _ ((List.mem_insertionSort dateDesc).mpr hp)
  · apply List.mem_append_right
    exact List.mem_singleton_self _

/-- Witness for C2 at a concrete one-post build. -/
theorem build_rendersAllPosts_indexExcludesDrafts_witness :
    (wPost.slug ++ ".html", buildPostHtml wPost "T") ∈ build [wPost] "I" "T" :=
  (build_rendersAllPosts_indexExcludesDrafts [wPost] "I" "T" wPost (by decide)).1

/-- Claim C5: `parsePost` returns absent exactly when the filename does not
end in `".md"`; when it does, a successful frontmatter parse yields a post
and a frontmatter-parser failure propagates as the error of the whole call
(it is never converted into an absent result). -/
theorem parsePost_absent_iff (matterFn : String → Except String (PostMeta × String))
    (markedFn : String → String) (fn fc : String) :
    (parsePost matterFn markedFn fn fc = Except.ok none
      ↔ endsWithStr fn ".md" = false)
    ∧ (endsWithStr fn ".md" = true →
        (∀ e, matterFn fc = Except.error e →
          parsePost matterFn markedFn fn fc = Except.error e)
        ∧ (∀ m md, matterFn fc = Except.ok (m, md) →
            parsePost matterFn markedFn fn fc =
              Except.ok (some { slug := slugOf fn, meta := m,
                                content := md, html := markedFn md }))) := by
  unfold parsePost
  cases he : endsWithStr fn ".md" with
  | false => simp [he]
  | true =>
    cases hm : matterFn fc with
    | error e => simp [he, hm]
    | ok v =>
      cases v with
      | mk m md => simp [he, hm]

/-- Witness for C5 at a concrete `.md` filename with a succeeding
frontmatter parse. -/
theorem parsePost_absent_iff_witness :
    parsePost wMatter wMarked "a.md" "body" =
      Except.ok (some { slug := slugOf "a.md",
                        meta := { title := "W", date := 0 },
                        content := "body", html := wMarked "body" }) :=
  ((parsePost_absent_iff wMatter wMarked "a.md" "body").2 (by decide)).2
    { title := "W", date := 0 } "body" rfl

/-- Claim C6: `scheduleRebuild` overwrites any armed, not-yet-fired debounce
timer, so after two scheduling requests inside one debounce window only the
second survives; when the timer then fires (with no rebuild in flight),
exactly one rebuild executes and it carries the second request's trigger
file and recompile flag. -/
theorem scheduleRebuild_coalesces (st : DevState) (f1 f2 : String)
    (b1 b2 : Bool) (h : st.active = 0) :
    (devStep (devStep st (DevEvent.schedule f1 b1))
        (DevEvent.schedule f2 b2)).pending = some (f2, b2)
    ∧ (devStep (devStep (devStep st (DevEvent.schedule f1 b1))
        (DevEvent.schedule f2 b2)) DevEvent.fire).executed
        = st.executed ++ [(f2, b2)]
    ∧ (devStep (devStep (devStep st (DevEvent.schedule f1 b1))
        (DevEvent.schedule f2 b2)) DevEvent.fire).pending = none := by
  refine ⟨rfl, ?_, ?_⟩ <;> simp [devStep, h]

/-- Witness for C6 from the initial dev-mode state. -/
theorem scheduleRebuild_coalesces_witness :
    (devStep (devStep devInit (DevEvent.schedule "a.md" false))
        (DevEvent.schedule "b.md" true)).pending = some ("b.md", true)
    ∧ (devStep (devStep (devStep devInit (DevEvent.schedule "a.md" false))
        (DevEvent.schedule "b.md" true)) DevEvent.fire).executed
        = devInit.executed ++ [("b.md", true)]
    ∧ (devStep (devStep (devStep devInit (DevEvent.schedule "a.md" false))
        (DevEvent.schedule "b.md" true)) DevEvent.fire).pending = none :=
  scheduleRebuild_coalesces devInit "a.md" "b.md" false true rfl

theorem devStep_active_le {st : DevState} (e : DevEvent) (h : st.active ≤ 1) :
    (devStep st e).active ≤ 1 := by
  cases e with
  | schedule f b => simpa [devStep] using h
  | fire =>
    cases hp : st.pending with
    | none => simpa [devStep, hp] using h
    | some v =>
      cases v with
      | mk f b =>
        by_cases ha : st.active = 0
        · simp [devStep, hp, ha]
        · simpa [devStep, hp, ha] using h
  | finish ok =>
    simp only [devStep]
    omega

theorem devRun_active_le (events : List DevEvent) :
    ∀ st : DevState, st.active ≤ 1 → (events.foldl devStep st).active ≤ 1 := by
  induction events with
  | nil => exact fun _ h => h
  | cons e es ih => exact fun st h => ih _ (devStep_active_le e h)

/-- Claim C7: in every state reachable by the dev-mode loop at most one
rebuild is executing; a timer firing while a rebuild is in flight is skipped
entirely (the pending timer is consumed, nothing is queued, and the executed
log does not grow); and finishing a rebuild clears the in-flight flag
whether the build succeeded or failed. -/
theorem rebuild_mutualExclusion :
    (∀ events : List DevEvent, (devRun events).active ≤ 1)
    ∧ (∀ (st : DevState) (f : String) (b : Bool),
        st.pending = some (f, b) → st.active ≠ 0 →
          devStep st DevEvent.fire =
            { st with pending := none, skipped := st.skipped + 1 })
    ∧ (∀ (st : DevState) (ok : Bool),
        (devStep st (DevEvent.finish ok)).active = st.active - 1
        ∧ (devStep st (DevEvent.finish ok)).executed = st.executed) := by
  refine ⟨fun es => devRun_active_le es devInit (Nat.zero_le 1), ?_, ?_⟩
  · intro st f b hp ha
    simp [devStep, hp, ha]
  · exact fun st ok => ⟨rfl, rfl⟩

/-- Witness for C7's skip branch: the timer fires while a rebuild is in
flight and the cycle is dropped without being queued. -/
theorem rebuild_mutualExclusion_witness :
    devStep { pending := some ("a.md", true), active := 1, executed := [],
              skipped := 0 } DevEvent.fire
      = { pending := none, active := 1, executed := [], skipped := 1 } :=
  rebuild_mutualExclusion.2.1
    { pending := some ("a.md", true), active := 1, executed := [], skipped := 0 }
    "a.md" true rfl (by decide)

/-- Claim C8: a watcher's change/add/unlink handlers attach only at its
"ready" (initial-scan-complete) signal, so the emissions of the initial scan
(everything before "ready", in particular the `added` events for files
already present at startup) reach `scheduleRebuild` zero times, and the
calls produced are exactly those for events after "ready". -/
theorem watcher_handlersGateOnReady (accept : String → Bool)
    (onAdd onUnlink : Bool) :
    ∀ (pre post : List WatchEvent), WatchEvent.ready ∉ pre →
      watcherScheduleCalls accept onAdd onUnlink false
          (pre ++ WatchEvent.ready :: post)
        = watcherScheduleCalls accept onAdd onUnlink true post
      ∧ watcherScheduleCalls accept onAdd onUnlink false pre = []
  | [], post, _ => ⟨rfl, rfl⟩
  | e :: es, post, h => by
    have he : e ≠ WatchEvent.ready := fun hc => h (by simp [hc])
    have h2 : WatchEvent.ready ∉ es := fun hc => h (by simp [hc])
    obtain ⟨ih1, ih2⟩ := watcher_handlersGateOnReady accept onAdd onUnlink es post h2
    cases e with
    | ready => exact absurd rfl he
    | changed f => exact ⟨by simpa [watcherScheduleCalls] using ih1,
        by simpa [watcherScheduleCalls] using ih2⟩
    | added f => exact ⟨by simpa [watcherScheduleCalls] using ih1,
        by simpa [watcherScheduleCalls] using ih2⟩
    | unlinked f => exact ⟨by simpa [watcherScheduleCalls] using ih1,
        by simpa [watcherScheduleCalls] using ih2⟩

/-- Witness for C8: a file present at startup (emitted as `added` during the
initial scan) produces no call, while a post-ready change does. -/
theorem watcher_handlersGateOnReady_witness :
    watcherScheduleCalls mdAccept true true false
        ([WatchEvent.added "old.md"] ++
          WatchEvent.ready :: [WatchEvent.changed "new.md"])
      = watcherScheduleCalls mdAccept true true true [WatchEvent.changed "new.md"]
    ∧ watcherScheduleCalls mdAccept true true false [WatchEvent.added "old.md"]
      = [] :=
  watcher_handlersGateOnReady mdAccept true true
    [WatchEvent.added "old.md"] [WatchEvent.changed "new.md"] (by decide)

/-- Claim C9: running `filterPostsForIndex` on the heap leaves the input
array untouched (the `.filter` step allocates a fresh array and the in-place
`.sort` mutates only that copy); the array the call returns holds the pure
`filterPostsForIndex` of the input. -/
theorem filterPostsForIndexImpl_frame (h : Heap) (r : Nat)
    (hr : r < h.arrays.length) :
    (filterPostsForIndexImpl h r).1.get r = h.get r
    ∧ (filterPostsForIndexImpl h r).1.get (filterPostsForIndexImpl h r).2
        = filterPostsForIndex (h.get r) := by
  dsimp only [filterPostsForIndexImpl]
  constructor
  · unfold Heap.get
    rw [List.getElem?_set_ne (show h.arrays.length ≠ r from fun hc => by omega),
      List.getElem?_append, if_pos hr]
  · unfold Heap.get
    rw [List.getElem?_set_eq_of_lt _ (by simp)]
    simp only [Option.getD_some, List.getElem?_concat_length]
    rfl

/-- Witness for C9 at a concrete one-array heap. -/
theorem filterPostsForIndexImpl_frame_witness :
    (filterPostsForIndexImpl ⟨[[wPost]]⟩ 0).1.get 0 = Heap.get ⟨[[wPost]]⟩ 0 :=
  (filterPostsForIndexImpl_frame ⟨[[wPost]]⟩ 0 (by decide)).1

/-- Claim C10: the three `replace` calls in `buildPost` are applied
sequentially to the intermediate string, \x7b\x7btitle\x7d\x7d first, then
\x7b\x7bdate\x7d\x7d, then \x7b\x7bcontent\x7d\x7d.  For a post whose title
contains the literal token \x7b\x7bdate\x7d\x7d and a template where
\x7b\x7btitle\x7d\x7d precedes \x7b\x7bdate\x7d\x7d, the token inside the
substituted title is replaced by the formatted date while the template's own
later \x7b\x7bdate\x7d\x7d occurrence is left intact. -/
theorem buildPost_sequentialSubstitution :
    buildPostHtml c10Post c10Template = "AXJanuary 1, 1970YB\x7b\x7bdate\x7d\x7dC"
    ∧ containsToken (buildPostHtml c10Post c10Template) dateToken = true := by
  decide
